import Mathlib

/-!
Shallow embedding of the `intel_npu` plugin core from this repository:

* the I/O-metadata binder (`IODescriptor`, `NetworkMetadata.findByName`,
  `NetworkMetadata.bindRelatedDescriptors` from
  `src/plugins/intel_npu/src/al/include/intel_npu/al/icompiler.hpp`), and
* the IR serialization adapter (`IR::IR`, `IR::serializeToIR`, `IR::~IR`,
  `IR::getXml`, `IR::getWeights` from `graph_transformations.hpp` / its
  implementation file).

Machine integers are modelled as `Nat` (no arithmetic near overflow occurs in
the modelled code paths); `std::optional` becomes `Option`; the C++ vectors
become `List`s; mutation becomes explicit state passing.
-/

namespace IntelNPU

/-- Mirrors `struct IODescriptor` of `icompiler.hpp`.  The element type and the
partial shapes are opaque to every modelled operation, so they are carried as
plain payload fields (`Nat` for the element-type enum, `List Int` for shapes,
where a negative entry stands for a dynamic dimension). -/
structure IODescriptor where
  nameFromCompiler : String
  precision : Nat := 0
  shapeFromCompiler : List Int := []
  isStateInput : Bool := false
  isStateOutput : Bool := false
  isShapeTensor : Bool := false
  relatedDescriptorIndex : Option Nat := none
  nodeFriendlyName : String := ""
  outputTensorNames : List String := []
  shapeFromIRModel : List Int := []
deriving DecidableEq

/-- Mirrors `struct NetworkMetadata` of `icompiler.hpp`. -/
structure NetworkMetadata where
  name : String := ""
  inputs : List IODescriptor
  outputs : List IODescriptor
  profilingOutputs : List IODescriptor := []
  numStreams : Int := 1
deriving DecidableEq

/-- Mirrors `NetworkMetadata::findByName`: linear scan returning the first
index whose `nameFromCompiler` equals the target, `none` when absent. -/
def findByName : List IODescriptor → String → Option Nat
  | [], _ => none
  | d :: rest, target =>
    if d.nameFromCompiler = target then some 0
    else (findByName rest target).map (· + 1)

/-- Writes `relatedDescriptorIndex := some v` at position `i`
(`descriptors.at(i).relatedDescriptorIndex = v` in the C++; every call site
passes an in-bounds index). -/
def setRelated : List IODescriptor → Nat → Nat → List IODescriptor
  | [], _, _ => []
  | d :: rest, 0, v => { d with relatedDescriptorIndex := some v } :: rest
  | d :: rest, i + 1, v => d :: setRelated rest i v

/-- One iteration of the first loop of `bindRelatedDescriptors` (the loop over
`inputs`), at loop counter `ioIndex = i`. -/
def bindInputAt (m : NetworkMetadata) (i : Nat) : NetworkMetadata :=
  match m.inputs.get? i with
  | none => m
  | some input =>
    if input.relatedDescriptorIndex.isSome then m
    else if input.isStateInput then
      match findByName m.outputs input.nameFromCompiler with
      | some j =>
        { m with inputs := setRelated m.inputs i j, outputs := setRelated m.outputs j i }
      | none => m
    else if input.isShapeTensor then
      match findByName m.inputs input.nameFromCompiler with
      | some j =>
        if j = i then m
        else { m with inputs := setRelated (setRelated m.inputs i j) j i }
      | none => m
    else m

/-- One iteration of the second loop of `bindRelatedDescriptors` (the loop
over `outputs`), at loop counter `ioIndex = i`. -/
def bindOutputAt (m : NetworkMetadata) (i : Nat) : NetworkMetadata :=
  match m.outputs.get? i with
  | none => m
  | some output =>
    if output.relatedDescriptorIndex.isSome then m
    else if output.isShapeTensor then
      match findByName m.outputs output.nameFromCompiler with
      | some j =>
        if j = i then m
        else { m with outputs := setRelated (setRelated m.outputs i j) j i }
      | none => m
    else m

/-- Mirrors `NetworkMetadata::bindRelatedDescriptors`: the loop over `inputs`
followed by the loop over `outputs`.  The C++ range-for visits each position
exactly once; element mutation never changes the vector's size. -/
def bindRelatedDescriptors (m : NetworkMetadata) : NetworkMetadata :=
  let m₁ := (List.range m.inputs.length).foldl bindInputAt m
  (List.range m₁.outputs.length).foldl bindOutputAt m₁

/-- The `relatedDescriptorIndex` stored at position `i`, `none` when the index
is out of range or the field is unset. -/
def relAt (l : List IODescriptor) (i : Nat) : Option Nat :=
  match l.get? i with
  | some d => d.relatedDescriptorIndex
  | none => none

/-- The `isStateInput` flag at position `i` (`false` out of range). -/
def isStateInputAt (l : List IODescriptor) (i : Nat) : Bool :=
  match l.get? i with
  | some d => d.isStateInput
  | none => false

/-- The `isShapeTensor` flag at position `i` (`false` out of range). -/
def isShapeTensorAt (l : List IODescriptor) (i : Nat) : Bool :=
  match l.get? i with
  | some d => d.isShapeTensor
  | none => false

/-- The `nameFromCompiler` at position `i` (`""` out of range). -/
def nameAt (l : List IODescriptor) (i : Nat) : String :=
  match l.get? i with
  | some d => d.nameFromCompiler
  | none => ""

/-- A descriptor with its `relatedDescriptorIndex` cleared; two descriptors
with the same `eraseRel` image differ at most in that field. -/
def eraseRel (d : IODescriptor) : IODescriptor :=
  { d with relatedDescriptorIndex := none }

/-- The condition under which the `inputs` loop of `bindRelatedDescriptors`
writes something at loop counter `i`: the descriptor exists, is not yet bound,
and its search succeeds (with a position different from its own for the
shape-tensor branch). -/
def inputFires (m : NetworkMetadata) (i : Nat) : Bool :=
  decide (i < m.inputs.length) && (relAt m.inputs i).isNone &&
  (if isStateInputAt m.inputs i then (findByName m.outputs (nameAt m.inputs i)).isSome
   else if isShapeTensorAt m.inputs i then
     match findByName m.inputs (nameAt m.inputs i) with
     | some j => !(j == i)
     | none => false
   else false)

/-- The analogous condition for the `outputs` loop. -/
def outputFires (m : NetworkMetadata) (i : Nat) : Bool :=
  decide (i < m.outputs.length) && (relAt m.outputs i).isNone &&
  (if isShapeTensorAt m.outputs i then
     match findByName m.outputs (nameAt m.outputs i) with
     | some j => !(j == i)
     | none => false
   else false)

/-- All compiler-facing names of a descriptor list are pairwise distinct. -/
def NamesNodup (l : List IODescriptor) : Prop :=
  (l.map (fun d => d.nameFromCompiler)).Nodup

/-- The pair `(i, j)` is bound as a state pairing: `ins[i]` is a state input
whose name search over `outs` yields `j`, and both related indices point at
each other. -/
def StatePairBoundL (ins outs : List IODescriptor) (i j : Nat) : Prop :=
  isStateInputAt ins i = true ∧
  findByName outs (nameAt ins i) = some j ∧
  relAt ins i = some j ∧ relAt outs j = some i

/-- Every related index currently set records one half of a symmetric state
pairing (the invariant maintained by the binding loops when names are
pairwise distinct). -/
def BindInvL (ins outs : List IODescriptor) : Prop :=
  (∀ i j, relAt ins i = some j → StatePairBoundL ins outs i j) ∧
  (∀ j i, relAt outs j = some i → StatePairBoundL ins outs i j)

/-- `BindInvL` read off a whole metadata record. -/
def BindInv (m : NetworkMetadata) : Prop :=
  BindInvL m.inputs m.outputs

/-- The property claimed by the specification for C1: every bound pairing is
symmetric — a state pairing from `inputs` into `outputs`, and shape-tensor
pairings within the `inputs` list and within the `outputs` list. -/
def BoundPairsSymmetric (m : NetworkMetadata) : Prop :=
  (∀ i j, isStateInputAt m.inputs i = true → relAt m.inputs i = some j →
    relAt m.outputs j = some i) ∧
  (∀ i j, isShapeTensorAt m.inputs i = true → relAt m.inputs i = some j →
    relAt m.inputs j = some i) ∧
  (∀ i j, isShapeTensorAt m.outputs i = true → relAt m.outputs i = some j →
    relAt m.outputs j = some i)

/-- Two state inputs sharing the compiler-facing name "x" and a single output
of that name: the second state input overwrites the output half of the first
pairing. -/
def dupStateNet : NetworkMetadata :=
  { inputs := [{ nameFromCompiler := "x", isStateInput := true },
               { nameFromCompiler := "x", isStateInput := true }],
    outputs := [{ nameFromCompiler := "x" }] }

/-- The property claimed by the specification for C2: no related index ever
equals its own position in its list. -/
def NoSelfRelated (m : NetworkMetadata) : Prop :=
  (∀ i, relAt m.inputs i ≠ some i) ∧ (∀ j, relAt m.outputs j ≠ some j)

/-- One state input whose matching output sits at the same position 0. -/
def sameSlotStateNet : NetworkMetadata :=
  { inputs := [{ nameFromCompiler := "v", isStateInput := true }],
    outputs := [{ nameFromCompiler := "v" }] }

/-- Every self-referential related index belongs to a state pairing whose
counterpart happens to sit at the same position in the other list; the flag
at that position of the inputs list is therefore `isStateInput`. -/
def SelfRefOnlyStateL (ins outs : List IODescriptor) : Prop :=
  (∀ i, relAt ins i = some i → isStateInputAt ins i = true) ∧
  (∀ j, relAt outs j = some j → isStateInputAt ins j = true)

/-- One state input, distinct names, pre-unbound: concrete instance
exercising the amended C1 theorem. -/
def c1WitnessNet : NetworkMetadata :=
  { inputs := [{ nameFromCompiler := "s", isStateInput := true }],
    outputs := [{ nameFromCompiler := "s" }] }

/-- Concrete instance exercising the amended C2 theorem: the bound state pair
(0, 0) is self-positional yet flagged as a state input. -/
def c2WitnessNet : NetworkMetadata :=
  { inputs := [{ nameFromCompiler := "w", isStateInput := true }],
    outputs := [{ nameFromCompiler := "w" }] }

/-- The property claimed for C9: a state input whose compiler-facing name is
absent from the outputs list (its `findByName` search returns the empty
optional) is left with an empty related index by `bindRelatedDescriptors`. -/
def UnmatchedStateInputUnbound (m : NetworkMetadata) : Prop :=
  ∀ i, isStateInputAt m.inputs i = true →
    findByName m.outputs (nameAt m.inputs i) = none →
    relAt (bindRelatedDescriptors m).inputs i = none

/-- A state input named "n" with no matching output, plus a shape tensor with
the same name: the shape tensor binds the state input as its partner even
though the state input's own search failed. -/
def orphanStateNet : NetworkMetadata :=
  { inputs := [{ nameFromCompiler := "n", isStateInput := true },
               { nameFromCompiler := "n", isShapeTensor := true }],
    outputs := [] }

/-- A state input named "q" with a single output named "r": its search fails
and it stays unbound. -/
def c9WitnessNet : NetworkMetadata :=
  { inputs := [{ nameFromCompiler := "q", isStateInput := true }],
    outputs := [{ nameFromCompiler := "r" }] }

/-- An operation of the model graph.  Only the interpolate operators matter
to the modelled downgrade pass; every other operation is opaque payload. -/
inductive OvOp where
  | interpolate11 (payload : Nat)
  | interpolate4 (payload : Nat)
  | otherOp (payload : Nat)
deriving DecidableEq

/-- A runtime-info value: the serializer stores the boolean `true`; prior
entries may hold an arbitrary value, abstracted as a numbered payload. -/
inductive RtValue where
  | boolVal (b : Bool)
  | otherVal (n : Nat)
deriving DecidableEq

/-- The slice of `ov::Model` the serialization adapter touches: friendly
name, operation list, runtime-info map (association list) and the estimated
graph size returned by `get_graph_size()`. -/
structure OvModel where
  friendlyName : String
  ops : List OvOp := []
  rtInfo : List (String × RtValue) := []
  graphSize : Nat := 0
deriving DecidableEq

/-- `ov::Model::clone()`: in this value model a clone is the value itself;
what matters is which heap cell a mutation is applied to. -/
def cloneModel (m : OvModel) : OvModel := m

/-- `model->set_rt_info(v, key)`: insert or overwrite the entry for `key`. -/
def set_rt_info (m : OvModel) (v : RtValue) (key : String) : OvModel :=
  { m with rtInfo := (key, v) :: m.rtInfo.filter (fun p => p.1 != key) }

/-- `model->get_rt_info().erase(key)`. -/
def rt_info_erase (m : OvModel) (key : String) : OvModel :=
  { m with rtInfo := m.rtInfo.filter (fun p => p.1 != key) }

/-- Reads the runtime-info entry stored under `key`. -/
def rtLookup (m : OvModel) (key : String) : Option RtValue :=
  m.rtInfo.lookup key

/-- `ov::pass::ConvertInterpolate11ToInterpolate4`: rewrites every
interpolate-11 operation into its interpolate-4 equivalent. -/
def convertInterpolate11ToInterpolate4 (m : OvModel) : OvModel :=
  { m with ops := m.ops.map (fun op => match op with
      | OvOp.interpolate11 p => OvOp.interpolate4 p
      | op => op) }

/-- A pass registered on the `ov::pass::Manager`. -/
inductive RegisteredPass where
  | convertInterpolate
  | serializeToStreams
  | serializeToFiles (xmlName weightsName : String)
deriving DecidableEq

/-- Events of the critical section of `IR::serializeToIR` (acquisition and
release of the process-wide `rtInfoMutex`, the flag writes around
`run_passes`). -/
inductive SerEvent where
  | lockAcquire
  | setFlag
  | runPasses
  | eraseFlag
  | lockRelease
deriving DecidableEq

/-- The host environment: whether the platform is Windows (`#ifdef _WIN32`)
and whether opening a given file path succeeds. -/
structure SerEnv where
  isWindows : Bool
  openOk : String → Bool

/-- The state owned by an `IR` object together with the heap cell of the
caller's model.  `origModel` is the caller's object; `workingClone` is the
clone created for a downgrade; `usesClone` records which cell the `_model`
pointer designates.  Stream contents are represented by the model snapshot
the serialize pass consumed. -/
structure IRState where
  origModel : OvModel
  workingClone : Option OvModel := none
  usesClone : Bool := false
  isLargeModel : Bool := false
  xml : Option OvModel := none
  weights : Option OvModel := none
  writtenFiles : List String := []
  xmlFileName : Option String := none
  weightsFileName : Option String := none
  xmlFileOpen : Bool := false
  weightsFileOpen : Bool := false
  xmlFileGood : Bool := false
  weightsFileGood : Bool := false
  xmlOpenedBinary : Bool := false
  weightsOpenedBinary : Bool := false
  fileToDelete : List String := []
  failed : Bool := false
  events : List SerEvent := []

/-- The model object currently designated by the `_model` pointer. -/
def refModel (st : IRState) : OvModel :=
  if st.usesClone then st.workingClone.getD st.origModel else st.origModel

/-- Writes through the `_model` pointer: mutates the clone cell when the
serializer cloned, the caller's cell otherwise. -/
def setRefModel (st : IRState) (m : OvModel) : IRState :=
  if st.usesClone then { st with workingClone := some m } else { st with origModel := m }

/-- Appends one critical-section event to the trace. -/
def pushEvent (st : IRState) (e : SerEvent) : IRState :=
  { st with events := st.events ++ [e] }

/-- Runs one registered pass: the downgrade rewrites the referenced model;
the serialize pass reads it and emits either the two memory streams or the
two files. -/
def runPass (st : IRState) (p : RegisteredPass) : IRState :=
  match p with
  | RegisteredPass.convertInterpolate =>
    setRefModel st (convertInterpolate11ToInterpolate4 (refModel st))
  | RegisteredPass.serializeToStreams =>
    { st with xml := some (refModel st), weights := some (refModel st) }
  | RegisteredPass.serializeToFiles xn wn =>
    { st with writtenFiles := st.writtenFiles ++ [xn, wn] }

/-- `manager.run_passes(_model)`: runs the registered passes in order. -/
def run_passes (st : IRState) (ps : List RegisteredPass) : IRState :=
  ps.foldl runPass st

/-- The key of the transient runtime-info annotation. -/
def newApiKey : String := "is_new_api"

/-- The name of the temporary structure file: `<modelName>_serialized.xml`. -/
def xmlNameOf (m : OvModel) : String := m.friendlyName ++ "_serialized.xml"

/-- The name of the temporary weights file: `<modelName>_serialized.bin`. -/
def weightsNameOf (m : OvModel) : String := m.friendlyName ++ "_serialized.bin"

/-- The opset-compatibility step of `IR::serializeToIR`: below opset 11 the
model is cloned (`_model = _model->clone()`) so the downgrade will not touch
the caller's object. -/
def opsetStep (st : IRState) (supportedOpset : Nat) : IRState :=
  if supportedOpset < 11 then
    { st with workingClone := some (cloneModel (refModel st)), usesClone := true }
  else st

/-- The mutex-guarded critical section of `IR::serializeToIR`: set the
`is_new_api` flag, run the passes, erase the flag — all between one lock
acquisition and its release. -/
def lockedSection (st : IRState) (passes : List RegisteredPass) : IRState :=
  let st2 := pushEvent st SerEvent.lockAcquire
  let st3 := pushEvent
    (setRefModel st2 (set_rt_info (refModel st2) (RtValue.boolVal true) newApiKey))
    SerEvent.setFlag
  let st4 := pushEvent (run_passes st3 passes) SerEvent.runPasses
  let st5 := pushEvent
    (setRefModel st4 (rt_info_erase (refModel st4) newApiKey))
    SerEvent.eraseFlag
  pushEvent st5 SerEvent.lockRelease

/-- The large-model epilogue of `IR::serializeToIR`: record both temporary
files for deletion, open them in binary mode, and throw
(`OPENVINO_THROW("Failed to open serialized files")`) unless both opened. -/
def openFilesStep (st : IRState) (xmlName weightsName : String) (env : SerEnv) : IRState :=
  if st.isLargeModel then
    { st with fileToDelete := st.fileToDelete ++ [xmlName, weightsName],
              xmlFileName := some xmlName,
              weightsFileName := some weightsName,
              xmlFileOpen := env.openOk xmlName,
              weightsFileOpen := env.openOk weightsName,
              xmlFileGood := env.openOk xmlName,
              weightsFileGood := env.openOk weightsName,
              xmlOpenedBinary := true,
              weightsOpenedBinary := true,
              failed := !(env.openOk xmlName && env.openOk weightsName) }
  else st

/-- Everything `IR::serializeToIR` does after the clone decision: register
the downgrade pass when needed, register the serialize pass targeting files
or streams, run the critical section, then open the files in large mode. -/
def serializeMain (st : IRState) (supportedOpset : Nat) (env : SerEnv) : IRState :=
  let passes : List RegisteredPass :=
    (if supportedOpset < 11 then [RegisteredPass.convertInterpolate] else []) ++
    [if st.isLargeModel then
        RegisteredPass.serializeToFiles (xmlNameOf (refModel st)) (weightsNameOf (refModel st))
      else RegisteredPass.serializeToStreams]
  openFilesStep (lockedSection st passes) (xmlNameOf (refModel st))
    (weightsNameOf (refModel st)) env

/-- `IR::serializeToIR(supportedOpset)`. -/
def serializeToIR (st : IRState) (supportedOpset : Nat) (env : SerEnv) : IRState :=
  serializeMain (opsetStep st supportedOpset) supportedOpset env

/-- `IR::IR(origModel, supportedOpset)`: take shared ownership of the
caller's model, decide large-model mode (`> 2 GiB`, Windows only), then
serialize. -/
def mkIR (origModel : OvModel) (supportedOpset : Nat) (env : SerEnv) : IRState :=
  let st0 : IRState :=
    { origModel := origModel,
      isLargeModel := env.isWindows && decide (origModel.graphSize > 1024 * 1024 * 1024 * 2) }
  serializeToIR st0 supportedOpset env

/-- What an accessor of the `IR` object hands back: the in-memory
`stringstream` or the `ifstream` over the named temporary file. -/
inductive StreamChoice where
  | memoryStream (content : Option OvModel)
  | fileStream (name : Option String)
deriving DecidableEq

/-- `IR::getXml`. -/
def getXml (st : IRState) : StreamChoice :=
  if !st.isLargeModel then StreamChoice.memoryStream st.xml
  else StreamChoice.fileStream st.xmlFileName

/-- `IR::getWeights`. -/
def getWeights (st : IRState) : StreamChoice :=
  if !st.isLargeModel then StreamChoice.memoryStream st.weights
  else StreamChoice.fileStream st.weightsFileName

/-- The deletion loop of `IR::~IR`: every recorded path is passed to
`std::remove`, whose result is ignored — a failure neither stops the loop
nor raises an error.  Returns each attempted path with its outcome. -/
def removeLoop : List String → (String → Bool) → List (String × Bool)
  | [], _ => []
  | f :: rest, rm => (f, rm f) :: removeLoop rest rm

/-- `IR::~IR()`: close the file streams that test good, destroy the
`ifstream` members (closing any remaining handle), then attempt to delete
every recorded temporary file. -/
def irDestruct (st : IRState) (removeOk : String → Bool) :
    List (String × Bool) × IRState :=
  let st1 := if st.xmlFileGood then { st with xmlFileOpen := false } else st
  let st2 := if st1.weightsFileGood then { st1 with weightsFileOpen := false } else st1
  let st3 := { st2 with xmlFileOpen := false, weightsFileOpen := false }
  (removeLoop st3.fileToDelete removeOk, st3)

/-- A host without file-mode pressure and with all file opens succeeding. -/
def plainEnv : SerEnv := { isWindows := false, openOk := fun _ => true }

/-- A small model carrying an interpolate-11 operation. -/
def c3WitnessModel : OvModel :=
  { friendlyName := "m", ops := [OvOp.interpolate11 1], graphSize := 4 }

/-- A small model whose runtime info already holds `is_new_api`. -/
def c10WitnessModel : OvModel :=
  { friendlyName := "m", rtInfo := [("is_new_api", RtValue.otherVal 7)], graphSize := 4 }

theorem setRelated_get?_of_ne (l : List IODescriptor) (i v k : Nat) (h : k ≠ i) :
    (setRelated l i v).get? k = l.get? k := by
  induction l generalizing i k with
  | nil => rfl
  | cons d rest ih =>
    cases i with
    | zero =>
      cases k with
      | zero => exact absurd rfl h
      | succ k' => rfl
    | succ i' =>
      cases k with
      | zero => rfl
      | succ k' => exact ih i' k' (fun hh => h (by rw [hh]))

theorem setRelated_get?_self (l : List IODescriptor) (i v : Nat) (d : IODescriptor)
    (h : l.get? i = some d) :
    (setRelated l i v).get? i = some { d with relatedDescriptorIndex := some v } := by
  induction l generalizing i with
  | nil => simp [List.get?] at h
  | cons e rest ih =>
    cases i with
    | zero =>
      injection h with h'
      subst h'
      rfl
    | succ i' => exact ih i' h

theorem setRelated_map_eraseRel (l : List IODescriptor) (i v : Nat) :
    (setRelated l i v).map eraseRel = l.map eraseRel := by
  induction l generalizing i with
  | nil => rfl
  | cons d rest ih =>
    cases i with
    | zero => rfl
    | succ i' =>
      simp only [setRelated, List.map_cons]
      rw [ih i']

theorem relAt_setRelated_of_ne (l : List IODescriptor) (i v k : Nat) (h : k ≠ i) :
    relAt (setRelated l i v) k = relAt l k := by
  unfold relAt
  rw [setRelated_get?_of_ne l i v k h]

theorem relAt_setRelated_self (l : List IODescriptor) (i v : Nat) (d : IODescriptor)
    (h : l.get? i = some d) : relAt (setRelated l i v) i = some v := by
  unfold relAt
  rw [setRelated_get?_self l i v d h]

theorem get?_congr_of_map_eraseRel (l₁ l₂ : List IODescriptor)
    (h : l₁.map eraseRel = l₂.map eraseRel) (i : Nat) :
    (l₁.get? i).map eraseRel = (l₂.get? i).map eraseRel := by
  rw [← List.get?_map, ← List.get?_map, h]

theorem get?_cases_of_map_eraseRel (l₁ l₂ : List IODescriptor)
    (h : l₁.map eraseRel = l₂.map eraseRel) (i : Nat) :
    (l₁.get? i = none ∧ l₂.get? i = none) ∨
      ∃ d e, l₁.get? i = some d ∧ l₂.get? i = some e ∧ eraseRel d = eraseRel e := by
  have hh := get?_congr_of_map_eraseRel l₁ l₂ h i
  cases h₁ : l₁.get? i with
  | none =>
    cases h₂ : l₂.get? i with
    | none => exact Or.inl ⟨rfl, rfl⟩
    | some e => rw [h₁, h₂] at hh; simp at hh
  | some d =>
    cases h₂ : l₂.get? i with
    | none => rw [h₁, h₂] at hh; simp at hh
    | some e =>
      rw [h₁, h₂] at hh
      simp only [Option.map_some', Option.some.injEq] at hh
      exact Or.inr ⟨d, e, rfl, rfl, hh⟩

theorem isStateInputAt_congr (l₁ l₂ : List IODescriptor)
    (h : l₁.map eraseRel = l₂.map eraseRel) (i : Nat) :
    isStateInputAt l₁ i = isStateInputAt l₂ i := by
  unfold isStateInputAt
  rcases get?_cases_of_map_eraseRel l₁ l₂ h i with ⟨h₁, h₂⟩ | ⟨d, e, h₁, h₂, he⟩
  · rw [h₁, h₂]
  · rw [h₁, h₂]
    exact congrArg (fun x => x.isStateInput) he

theorem isShapeTensorAt_congr (l₁ l₂ : List IODescriptor)
    (h : l₁.map eraseRel = l₂.map eraseRel) (i : Nat) :
    isShapeTensorAt l₁ i = isShapeTensorAt l₂ i := by
  unfold isShapeTensorAt
  rcases get?_cases_of_map_eraseRel l₁ l₂ h i with ⟨h₁, h₂⟩ | ⟨d, e, h₁, h₂, he⟩
  · rw [h₁, h₂]
  · rw [h₁, h₂]
    exact congrArg (fun x => x.isShapeTensor) he

theorem nameAt_congr (l₁ l₂ : List IODescriptor)
    (h : l₁.map eraseRel = l₂.map eraseRel) (i : Nat) :
    nameAt l₁ i = nameAt l₂ i := by
  unfold nameAt
  rcases get?_cases_of_map_eraseRel l₁ l₂ h i with ⟨h₁, h₂⟩ | ⟨d, e, h₁, h₂, he⟩
  · rw [h₁, h₂]
  · rw [h₁, h₂]
    exact congrArg (fun x => x.nameFromCompiler) he

theorem map_name_congr (l₁ l₂ : List IODescriptor)
    (h : l₁.map eraseRel = l₂.map eraseRel) :
    l₁.map (fun d => d.nameFromCompiler) = l₂.map (fun d => d.nameFromCompiler) := by
  have h' := congrArg (List.map (fun d => d.nameFromCompiler)) h
  rw [List.map_map, List.map_map] at h'
  exact h'

theorem length_congr_of_map_eraseRel (l₁ l₂ : List IODescriptor)
    (h : l₁.map eraseRel = l₂.map eraseRel) : l₁.length = l₂.length := by
  have h' := congrArg List.length h
  simpa using h'

theorem findByName_congr (l₁ l₂ : List IODescriptor) (t : String)
    (h : l₁.map (fun d => d.nameFromCompiler) = l₂.map (fun d => d.nameFromCompiler)) :
    findByName l₁ t = findByName l₂ t := by
  induction l₁ generalizing l₂ with
  | nil =>
    cases l₂ with
    | nil => rfl
    | cons e rest => simp at h
  | cons d rest ih =>
    cases l₂ with
    | nil => simp at h
    | cons e rest₂ =>
      simp only [List.map_cons, List.cons.injEq] at h
      unfold findByName
      rw [h.1, ih rest₂ h.2]

theorem findByName_some (l : List IODescriptor) (t : String) (j : Nat)
    (h : findByName l t = some j) :
    ∃ d, l.get? j = some d ∧ d.nameFromCompiler = t := by
  induction l generalizing j with
  | nil => exact Option.noConfusion h
  | cons e rest ih =>
    unfold findByName at h
    by_cases he : e.nameFromCompiler = t
    · rw [if_pos he] at h
      injection h with h'
      subst h'
      exact ⟨e, rfl, he⟩
    · rw [if_neg he] at h
      cases hr : findByName rest t with
      | none => rw [hr] at h; simp at h
      | some j' =>
        rw [hr] at h
        simp only [Option.map_some', Option.some.injEq] at h
        subst h
        obtain ⟨d, hd, hnm⟩ := ih j' hr
        exact ⟨d, hd, hnm⟩

theorem findByName_self_of_nodup (l : List IODescriptor)
    (hnd : (l.map (fun d => d.nameFromCompiler)).Nodup) (i : Nat) (d : IODescriptor)
    (h : l.get? i = some d) : findByName l d.nameFromCompiler = some i := by
  induction l generalizing i with
  | nil => simp [List.get?] at h
  | cons e rest ih =>
    rw [List.map_cons, List.nodup_cons] at hnd
    cases i with
    | zero =>
      injection h with h'
      subst h'
      unfold findByName
      rw [if_pos rfl]
    | succ i' =>
      have hmem : d ∈ rest := List.get?_mem h
      have hne : e.nameFromCompiler ≠ d.nameFromCompiler := by
        intro he
        exact hnd.1 (he ▸ List.mem_map_of_mem (fun x => x.nameFromCompiler) hmem)
      unfold findByName
      rw [if_neg hne, ih hnd.2 i' h]
      rfl

theorem relAt_of_get? (l : List IODescriptor) (i : Nat) (input : IODescriptor)
    (h : l.get? i = some input) : relAt l i = input.relatedDescriptorIndex := by
  unfold relAt
  rw [h]

theorem isStateInputAt_of_get? (l : List IODescriptor) (i : Nat) (input : IODescriptor)
    (h : l.get? i = some input) : isStateInputAt l i = input.isStateInput := by
  unfold isStateInputAt
  rw [h]

theorem isShapeTensorAt_of_get? (l : List IODescriptor) (i : Nat) (input : IODescriptor)
    (h : l.get? i = some input) : isShapeTensorAt l i = input.isShapeTensor := by
  unfold isShapeTensorAt
  rw [h]

theorem nameAt_of_get? (l : List IODescriptor) (i : Nat) (input : IODescriptor)
    (h : l.get? i = some input) : nameAt l i = input.nameFromCompiler := by
  unfold nameAt
  rw [h]

theorem lt_length_of_get? (l : List IODescriptor) (i : Nat) (d : IODescriptor)
    (h : l.get? i = some d) : i < l.length := by
  by_contra hn
  rw [List.get?_eq_none.mpr (Nat.le_of_not_lt hn)] at h
  exact Option.noConfusion h

theorem bindInputAt_cases (m : NetworkMetadata) (i : Nat) :
    (bindInputAt m i = m ∧ inputFires m i = false) ∨
    (∃ input j, m.inputs.get? i = some input ∧ input.relatedDescriptorIndex = none ∧
      input.isStateInput = true ∧ findByName m.outputs input.nameFromCompiler = some j ∧
      inputFires m i = true ∧
      bindInputAt m i = { m with inputs := setRelated m.inputs i j,
                                 outputs := setRelated m.outputs j i }) ∨
    (∃ input j, m.inputs.get? i = some input ∧ input.relatedDescriptorIndex = none ∧
      input.isStateInput = false ∧ input.isShapeTensor = true ∧
      findByName m.inputs input.nameFromCompiler = some j ∧ j ≠ i ∧
      inputFires m i = true ∧
      bindInputAt m i = { m with inputs := setRelated (setRelated m.inputs i j) j i }) := by
  cases hg : m.inputs.get? i with
  | none =>
    have hlen : ¬ i < m.inputs.length := by
      intro hlt
      rw [List.get?_eq_none] at hg
      exact absurd hlt (Nat.not_lt_of_le hg)
    left
    constructor
    · simp [bindInputAt, hg, -List.get?_eq_getElem?]
    · simp [inputFires, hlen]
  | some input =>
    have hlen : i < m.inputs.length := lt_length_of_get? _ _ _ hg
    have hrel' := relAt_of_get? _ _ _ hg
    have hst' := isStateInputAt_of_get? _ _ _ hg
    have hsh' := isShapeTensorAt_of_get? _ _ _ hg
    have hnm' := nameAt_of_get? _ _ _ hg
    cases hro : input.relatedDescriptorIndex with
    | some r =>
      left
      constructor
      · simp [bindInputAt, hg, -List.get?_eq_getElem?, hro]
      · simp [inputFires, hrel', hro]
    | none =>
      cases hst : input.isStateInput with
      | true =>
        cases hf : findByName m.outputs input.nameFromCompiler with
        | none =>
          left
          constructor
          · simp [bindInputAt, hg, -List.get?_eq_getElem?, hro, hst, hf]
          · simp [inputFires, hrel', hro, hst', hst, hnm', hf]
        | some j =>
          right; left
          refine ⟨input, j, rfl, hro, hst, hf, ?_, ?_⟩
          · simp [inputFires, hlen, hrel', hro, hst', hst, hnm', hf]
          · simp [bindInputAt, hg, -List.get?_eq_getElem?, hro, hst, hf]
      | false =>
        cases hsh : input.isShapeTensor with
        | false =>
          left
          constructor
          · simp [bindInputAt, hg, -List.get?_eq_getElem?, hro, hst, hsh]
          · simp [inputFires, hrel', hro, hst', hst, hsh', hsh]
        | true =>
          cases hf : findByName m.inputs input.nameFromCompiler with
          | none =>
            left
            constructor
            · simp [bindInputAt, hg, -List.get?_eq_getElem?, hro, hst, hsh, hf]
            · simp [inputFires, hrel', hro, hst', hst, hsh', hsh, hnm', hf]
          | some j =>
            by_cases hji : j = i
            · left
              constructor
              · simp [bindInputAt, hg, -List.get?_eq_getElem?, hro, hst, hsh, hf, hji]
              · simp [inputFires, hrel', hro, hst', hst, hsh', hsh, hnm', hf, hji]
            · right; right
              refine ⟨input, j, rfl, hro, hst, hsh, hf, hji, ?_, ?_⟩
              · simp [inputFires, hlen, hrel', hro, hst', hst, hsh', hsh, hnm', hf, hji]
              · simp [bindInputAt, hg, -List.get?_eq_getElem?, hro, hst, hsh, hf, hji]

theorem bindOutputAt_cases (m : NetworkMetadata) (i : Nat) :
    (bindOutputAt m i = m ∧ outputFires m i = false) ∨
    (∃ output j, m.outputs.get? i = some output ∧ output.relatedDescriptorIndex = none ∧
      output.isShapeTensor = true ∧
      findByName m.outputs output.nameFromCompiler = some j ∧ j ≠ i ∧
      outputFires m i = true ∧
      bindOutputAt m i = { m with outputs := setRelated (setRelated m.outputs i j) j i }) := by
  cases hg : m.outputs.get? i with
  | none =>
    have hlen : ¬ i < m.outputs.length := by
      intro hlt
      rw [List.get?_eq_none] at hg
      exact absurd hlt (Nat.not_lt_of_le hg)
    left
    constructor
    · simp [bindOutputAt, hg, -List.get?_eq_getElem?]
    · simp [outputFires, hlen]
  | some output =>
    have hlen : i < m.outputs.length := lt_length_of_get? _ _ _ hg
    have hrel' := relAt_of_get? _ _ _ hg
    have hsh' := isShapeTensorAt_of_get? _ _ _ hg
    have hnm' := nameAt_of_get? _ _ _ hg
    cases hro : output.relatedDescriptorIndex with
    | some r =>
      left
      constructor
      · simp [bindOutputAt, hg, -List.get?_eq_getElem?, hro]
      · simp [outputFires, hrel', hro]
    | none =>
      cases hsh : output.isShapeTensor with
      | false =>
        left
        constructor
        · simp [bindOutputAt, hg, -List.get?_eq_getElem?, hro, hsh]
        · simp [outputFires, hrel', hro, hsh', hsh]
      | true =>
        cases hf : findByName m.outputs output.nameFromCompiler with
        | none =>
          left
          constructor
          · simp [bindOutputAt, hg, -List.get?_eq_getElem?, hro, hsh, hf]
          · simp [outputFires, hrel', hro, hsh', hsh, hnm', hf]
        | some j =>
          by_cases hji : j = i
          · left
            constructor
            · simp [bindOutputAt, hg, -List.get?_eq_getElem?, hro, hsh, hf, hji]
            · simp [outputFires, hrel', hro, hsh', hsh, hnm', hf, hji]
          · right
            refine ⟨output, j, rfl, hro, hsh, hf, hji, ?_, ?_⟩
            · simp [outputFires, hlen, hrel', hro, hsh', hsh, hnm', hf, hji]
            · simp [bindOutputAt, hg, -List.get?_eq_getElem?, hro, hsh, hf, hji]

theorem bindInputAt_inputs_eraseRel (m : NetworkMetadata) (i : Nat) :
    (bindInputAt m i).inputs.map eraseRel = m.inputs.map eraseRel := by
  rcases bindInputAt_cases m i with ⟨heq, _⟩ | ⟨input, j, _, _, _, _, _, heq⟩ |
    ⟨input, j, _, _, _, _, _, _, _, heq⟩ <;> rw [heq] <;>
    simp [setRelated_map_eraseRel]

theorem bindInputAt_outputs_eraseRel (m : NetworkMetadata) (i : Nat) :
    (bindInputAt m i).outputs.map eraseRel = m.outputs.map eraseRel := by
  rcases bindInputAt_cases m i with ⟨heq, _⟩ | ⟨input, j, _, _, _, _, _, heq⟩ |
    ⟨input, j, _, _, _, _, _, _, _, heq⟩ <;> rw [heq] <;>
    simp [setRelated_map_eraseRel]

theorem bindOutputAt_inputs (m : NetworkMetadata) (i : Nat) :
    (bindOutputAt m i).inputs = m.inputs := by
  rcases bindOutputAt_cases m i with ⟨heq, _⟩ | ⟨output, j, _, _, _, _, _, _, heq⟩ <;>
    rw [heq]

theorem bindOutputAt_outputs_eraseRel (m : NetworkMetadata) (i : Nat) :
    (bindOutputAt m i).outputs.map eraseRel = m.outputs.map eraseRel := by
  rcases bindOutputAt_cases m i with ⟨heq, _⟩ | ⟨output, j, _, _, _, _, _, _, heq⟩ <;>
    rw [heq] <;> simp [setRelated_map_eraseRel]

theorem relAt_setRelated_isSome_mono (l : List IODescriptor) (i v k : Nat)
    (h : (relAt l k).isSome = true) : (relAt (setRelated l i v) k).isSome = true := by
  by_cases hk : k = i
  · subst hk
    cases hg : l.get? k with
    | none => unfold relAt at h; rw [hg] at h; simp at h
    | some d => rw [relAt_setRelated_self l k v d hg]; rfl
  · rw [relAt_setRelated_of_ne l i v k hk]; exact h

theorem bindInputAt_inputs_isSome_mono (m : NetworkMetadata) (i k : Nat)
    (h : (relAt m.inputs k).isSome = true) :
    (relAt (bindInputAt m i).inputs k).isSome = true := by
  rcases bindInputAt_cases m i with ⟨heq, _⟩ | ⟨input, j, _, _, _, _, _, heq⟩ |
    ⟨input, j, _, _, _, _, _, _, _, heq⟩ <;> rw [heq]
  · exact h
  · exact relAt_setRelated_isSome_mono _ _ _ _ h
  · exact relAt_setRelated_isSome_mono _ _ _ _ (relAt_setRelated_isSome_mono _ _ _ _ h)

theorem bindInputAt_outputs_isSome_mono (m : NetworkMetadata) (i k : Nat)
    (h : (relAt m.outputs k).isSome = true) :
    (relAt (bindInputAt m i).outputs k).isSome = true := by
  rcases bindInputAt_cases m i with ⟨heq, _⟩ | ⟨input, j, _, _, _, _, _, heq⟩ |
    ⟨input, j, _, _, _, _, _, _, _, heq⟩ <;> rw [heq]
  · exact h
  · exact relAt_setRelated_isSome_mono _ _ _ _ h
  · exact h

theorem bindOutputAt_outputs_isSome_mono (m : NetworkMetadata) (i k : Nat)
    (h : (relAt m.outputs k).isSome = true) :
    (relAt (bindOutputAt m i).outputs k).isSome = true := by
  rcases bindOutputAt_cases m i with ⟨heq, _⟩ | ⟨output, j, _, _, _, _, _, _, heq⟩ <;>
    rw [heq]
  · exact h
  · exact relAt_setRelated_isSome_mono _ _ _ _ (relAt_setRelated_isSome_mono _ _ _ _ h)

theorem foldl_bindInputAt_inputs_eraseRel (l : List Nat) (m : NetworkMetadata) :
    ((l.foldl bindInputAt m).inputs).map eraseRel = m.inputs.map eraseRel := by
  induction l generalizing m with
  | nil => rfl
  | cons a l ih =>
    rw [List.foldl_cons, ih (bindInputAt m a), bindInputAt_inputs_eraseRel]

theorem foldl_bindInputAt_outputs_eraseRel (l : List Nat) (m : NetworkMetadata) :
    ((l.foldl bindInputAt m).outputs).map eraseRel = m.outputs.map eraseRel := by
  induction l generalizing m with
  | nil => rfl
  | cons a l ih =>
    rw [List.foldl_cons, ih (bindInputAt m a), bindInputAt_outputs_eraseRel]

theorem foldl_bindOutputAt_inputs (l : List Nat) (m : NetworkMetadata) :
    (l.foldl bindOutputAt m).inputs = m.inputs := by
  induction l generalizing m with
  | nil => rfl
  | cons a l ih =>
    rw [List.foldl_cons, ih (bindOutputAt m a), bindOutputAt_inputs]

theorem foldl_bindOutputAt_outputs_eraseRel (l : List Nat) (m : NetworkMetadata) :
    ((l.foldl bindOutputAt m).outputs).map eraseRel = m.outputs.map eraseRel := by
  induction l generalizing m with
  | nil => rfl
  | cons a l ih =>
    rw [List.foldl_cons, ih (bindOutputAt m a), bindOutputAt_outputs_eraseRel]

theorem foldl_bindInputAt_inputs_isSome_mono (l : List Nat) (m : NetworkMetadata) (k : Nat)
    (h : (relAt m.inputs k).isSome = true) :
    (relAt ((l.foldl bindInputAt m).inputs) k).isSome = true := by
  induction l generalizing m with
  | nil => exact h
  | cons a l ih =>
    rw [List.foldl_cons]
    exact ih (bindInputAt m a) (bindInputAt_inputs_isSome_mono m a k h)

theorem foldl_bindOutputAt_outputs_isSome_mono (l : List Nat) (m : NetworkMetadata) (k : Nat)
    (h : (relAt m.outputs k).isSome = true) :
    (relAt ((l.foldl bindOutputAt m).outputs) k).isSome = true := by
  induction l generalizing m with
  | nil => exact h
  | cons a l ih =>
    rw [List.foldl_cons]
    exact ih (bindOutputAt m a) (bindOutputAt_outputs_isSome_mono m a k h)

theorem inputFires_congr (m m' : NetworkMetadata) (i : Nat)
    (h1 : m.inputs.map eraseRel = m'.inputs.map eraseRel)
    (h2 : m.outputs.map eraseRel = m'.outputs.map eraseRel)
    (h3 : relAt m.inputs i = relAt m'.inputs i) :
    inputFires m i = inputFires m' i := by
  unfold inputFires
  rw [length_congr_of_map_eraseRel _ _ h1, h3, isStateInputAt_congr _ _ h1 i,
    isShapeTensorAt_congr _ _ h1 i, nameAt_congr _ _ h1 i,
    findByName_congr _ _ _ (map_name_congr _ _ h2),
    findByName_congr _ _ _ (map_name_congr _ _ h1)]

theorem outputFires_congr (m m' : NetworkMetadata) (i : Nat)
    (h2 : m.outputs.map eraseRel = m'.outputs.map eraseRel)
    (h3 : relAt m.outputs i = relAt m'.outputs i) :
    outputFires m i = outputFires m' i := by
  unfold outputFires
  rw [length_congr_of_map_eraseRel _ _ h2, h3, isShapeTensorAt_congr _ _ h2 i,
    nameAt_congr _ _ h2 i, findByName_congr _ _ _ (map_name_congr _ _ h2)]

theorem bindInputAt_eq_self_of_not_fires (m : NetworkMetadata) (i : Nat)
    (h : inputFires m i = false) : bindInputAt m i = m := by
  rcases bindInputAt_cases m i with ⟨heq, _⟩ | ⟨input, j, _, _, _, _, hfi, _⟩ |
    ⟨input, j, _, _, _, _, _, _, hfi, _⟩
  · exact heq
  · rw [h] at hfi; exact Bool.noConfusion hfi
  · rw [h] at hfi; exact Bool.noConfusion hfi

theorem bindOutputAt_eq_self_of_not_fires (m : NetworkMetadata) (i : Nat)
    (h : outputFires m i = false) : bindOutputAt m i = m := by
  rcases bindOutputAt_cases m i with ⟨heq, _⟩ | ⟨output, j, _, _, _, _, _, hfi, _⟩
  · exact heq
  · rw [h] at hfi; exact Bool.noConfusion hfi

theorem bindInputAt_rel_isSome_of_fires (m : NetworkMetadata) (i : Nat)
    (h : inputFires m i = true) : (relAt (bindInputAt m i).inputs i).isSome = true := by
  rcases bindInputAt_cases m i with ⟨_, hfi⟩ | ⟨input, j, hgi, _, _, _, _, heq⟩ |
    ⟨input, j, hgi, _, _, _, _, hji, _, heq⟩
  · rw [h] at hfi; exact Bool.noConfusion hfi
  · rw [heq]
    show (relAt (setRelated m.inputs i j) i).isSome = true
    rw [relAt_setRelated_self m.inputs i j input hgi]
    rfl
  · rw [heq]
    show (relAt (setRelated (setRelated m.inputs i j) j i) i).isSome = true
    rw [relAt_setRelated_of_ne _ j i i (Ne.symm hji),
      relAt_setRelated_self m.inputs i j input hgi]
    rfl

theorem bindOutputAt_rel_isSome_of_fires (m : NetworkMetadata) (i : Nat)
    (h : outputFires m i = true) : (relAt (bindOutputAt m i).outputs i).isSome = true := by
  rcases bindOutputAt_cases m i with ⟨_, hfi⟩ | ⟨output, j, hgi, _, _, _, hji, _, heq⟩
  · rw [h] at hfi; exact Bool.noConfusion hfi
  · rw [heq]
    show (relAt (setRelated (setRelated m.outputs i j) j i) i).isSome = true
    rw [relAt_setRelated_of_ne _ j i i (Ne.symm hji),
      relAt_setRelated_self m.outputs i j output hgi]
    rfl

theorem foldl_fixed (f : NetworkMetadata → Nat → NetworkMetadata) (l : List Nat)
    (m : NetworkMetadata) (h : ∀ i ∈ l, f m i = m) : l.foldl f m = m := by
  induction l with
  | nil => rfl
  | cons a l ih =>
    rw [List.foldl_cons, h a (List.mem_cons_self a l)]
    exact ih (fun i hi => h i (List.mem_cons_of_mem a hi))

theorem inputFires_eq_false_of_isSome (m : NetworkMetadata) (i : Nat)
    (h : (relAt m.inputs i).isSome = true) : inputFires m i = false := by
  unfold inputFires
  cases hx : relAt m.inputs i with
  | none => rw [hx] at h; exact Bool.noConfusion h
  | some v => simp

theorem outputFires_eq_false_of_isSome (m : NetworkMetadata) (i : Nat)
    (h : (relAt m.outputs i).isSome = true) : outputFires m i = false := by
  unfold outputFires
  cases hx : relAt m.outputs i with
  | none => rw [hx] at h; exact Bool.noConfusion h
  | some v => simp

theorem bind_eq (m : NetworkMetadata) :
    bindRelatedDescriptors m =
      (List.range ((List.range m.inputs.length).foldl bindInputAt m).outputs.length).foldl
        bindOutputAt ((List.range m.inputs.length).foldl bindInputAt m) := rfl

theorem inputPass_stable (l : List Nat) (m : NetworkMetadata) :
    ∀ i ∈ l, (relAt ((l.foldl bindInputAt m).inputs) i).isSome = true ∨
      inputFires (l.foldl bindInputAt m) i = false := by
  induction l generalizing m with
  | nil => intro i hi; simp at hi
  | cons a l ih =>
    intro i hi
    rw [List.foldl_cons]
    rcases List.mem_cons.mp hi with heq | hmem
    · subst heq
      cases hf : inputFires m i with
      | true =>
        left
        exact foldl_bindInputAt_inputs_isSome_mono l (bindInputAt m i) i
          (bindInputAt_rel_isSome_of_fires m i hf)
      | false =>
        rw [bindInputAt_eq_self_of_not_fires m i hf]
        cases hr : (relAt ((l.foldl bindInputAt m).inputs) i).isSome with
        | true => exact Or.inl rfl
        | false =>
          right
          have hrnone : relAt ((l.foldl bindInputAt m).inputs) i = none := by
            cases hx : relAt ((l.foldl bindInputAt m).inputs) i with
            | none => rfl
            | some v => rw [hx] at hr; exact Bool.noConfusion hr
          have hmnone : relAt m.inputs i = none := by
            cases hx : relAt m.inputs i with
            | none => rfl
            | some v =>
              have hs : (relAt m.inputs i).isSome = true := by rw [hx]; rfl
              have hmono := foldl_bindInputAt_inputs_isSome_mono l m i hs
              rw [hrnone] at hmono
              exact Bool.noConfusion hmono
          rw [inputFires_congr (l.foldl bindInputAt m) m i
            (foldl_bindInputAt_inputs_eraseRel l m) (foldl_bindInputAt_outputs_eraseRel l m)
            (by rw [hrnone, hmnone])]
          exact hf
    · exact ih (bindInputAt m a) i hmem

theorem outputPass_stable (l : List Nat) (m : NetworkMetadata) :
    ∀ i ∈ l, (relAt ((l.foldl bindOutputAt m).outputs) i).isSome = true ∨
      outputFires (l.foldl bindOutputAt m) i = false := by
  induction l generalizing m with
  | nil => intro i hi; simp at hi
  | cons a l ih =>
    intro i hi
    rw [List.foldl_cons]
    rcases List.mem_cons.mp hi with heq | hmem
    · subst heq
      cases hf : outputFires m i with
      | true =>
        left
        exact foldl_bindOutputAt_outputs_isSome_mono l (bindOutputAt m i) i
          (bindOutputAt_rel_isSome_of_fires m i hf)
      | false =>
        rw [bindOutputAt_eq_self_of_not_fires m i hf]
        cases hr : (relAt ((l.foldl bindOutputAt m).outputs) i).isSome with
        | true => exact Or.inl rfl
        | false =>
          right
          have hrnone : relAt ((l.foldl bindOutputAt m).outputs) i = none := by
            cases hx : relAt ((l.foldl bindOutputAt m).outputs) i with
            | none => rfl
            | some v => rw [hx] at hr; exact Bool.noConfusion hr
          have hmnone : relAt m.outputs i = none := by
            cases hx : relAt m.outputs i with
            | none => rfl
            | some v =>
              have hs : (relAt m.outputs i).isSome = true := by rw [hx]; rfl
              have hmono := foldl_bindOutputAt_outputs_isSome_mono l m i hs
              rw [hrnone] at hmono
              exact Bool.noConfusion hmono
          rw [outputFires_congr (l.foldl bindOutputAt m) m i
            (foldl_bindOutputAt_outputs_eraseRel l m) (by rw [hrnone, hmnone])]
          exact hf
    · exact ih (bindOutputAt m a) i hmem

theorem bindRelatedDescriptors_unfold (m : NetworkMetadata) :
    bindRelatedDescriptors m =
      (List.range ((List.range m.inputs.length).foldl bindInputAt m).outputs.length).foldl
        bindOutputAt ((List.range m.inputs.length).foldl bindInputAt m) := rfl

/-- C5: for every pair of input/output descriptor lists, calling
`bindRelatedDescriptors` twice in succession leaves the metadata in exactly
the same state as calling it once: every descriptor bound by the first call
is skipped by the second, and every descriptor the first call left unbound
fails its search condition again (names never change), so the second call
writes nothing. -/
theorem bindRelatedDescriptors_idempotent (m : NetworkMetadata) :
    bindRelatedDescriptors (bindRelatedDescriptors m) = bindRelatedDescriptors m := by
  obtain ⟨m₁, hm1⟩ : ∃ x, (List.range m.inputs.length).foldl bindInputAt m = x := ⟨_, rfl⟩
  obtain ⟨mb, hmb⟩ : ∃ x, bindRelatedDescriptors m = x := ⟨_, rfl⟩
  have hmb2 : (List.range m₁.outputs.length).foldl bindOutputAt m₁ = mb := by
    rw [← hmb, bindRelatedDescriptors_unfold m, hm1]
  have hin_mb_m1 : mb.inputs = m₁.inputs := by
    rw [← hmb2]; exact foldl_bindOutputAt_inputs _ _
  have hout_mb_m1 : mb.outputs.map eraseRel = m₁.outputs.map eraseRel := by
    rw [← hmb2]; exact foldl_bindOutputAt_outputs_eraseRel _ _
  have hin_m1_m : m₁.inputs.map eraseRel = m.inputs.map eraseRel := by
    rw [← hm1]; exact foldl_bindInputAt_inputs_eraseRel _ _
  have hlen_in : mb.inputs.length = m.inputs.length := by
    rw [hin_mb_m1]; exact length_congr_of_map_eraseRel _ _ hin_m1_m
  have hlen_out : mb.outputs.length = m₁.outputs.length :=
    length_congr_of_map_eraseRel _ _ hout_mb_m1
  have hstep1 : (List.range mb.inputs.length).foldl bindInputAt mb = mb := by
    apply foldl_fixed
    intro i hi
    apply bindInputAt_eq_self_of_not_fires
    have hfcongr : inputFires mb i = inputFires m₁ i := by
      apply inputFires_congr
      · rw [hin_mb_m1]
      · exact hout_mb_m1
      · rw [hin_mb_m1]
    have hi' : i ∈ List.range m.inputs.length := by
      rw [List.mem_range] at hi ⊢
      rw [← hlen_in]
      exact hi
    have hstab := inputPass_stable (List.range m.inputs.length) m i hi'
    rw [hm1] at hstab
    rcases hstab with hsome | hfalse
    · apply inputFires_eq_false_of_isSome
      rw [hin_mb_m1]
      exact hsome
    · rw [hfcongr]
      exact hfalse
  have hstep2 : (List.range mb.outputs.length).foldl bindOutputAt mb = mb := by
    apply foldl_fixed
    intro i hi
    apply bindOutputAt_eq_self_of_not_fires
    have hi' : i ∈ List.range m₁.outputs.length := by
      rw [List.mem_range] at hi ⊢
      rw [← hlen_out]
      exact hi
    have hstab := outputPass_stable (List.range m₁.outputs.length) m₁ i hi'
    rw [hmb2] at hstab
    rcases hstab with hsome | hfalse
    · exact outputFires_eq_false_of_isSome mb i hsome
    · exact hfalse
  rw [hmb, bindRelatedDescriptors_unfold mb, hstep1, hstep2]

theorem isStateInputAt_setRelated (l : List IODescriptor) (i v k : Nat) :
    isStateInputAt (setRelated l i v) k = isStateInputAt l k :=
  isStateInputAt_congr _ _ (setRelated_map_eraseRel l i v) k

theorem isShapeTensorAt_setRelated (l : List IODescriptor) (i v k : Nat) :
    isShapeTensorAt (setRelated l i v) k = isShapeTensorAt l k :=
  isShapeTensorAt_congr _ _ (setRelated_map_eraseRel l i v) k

theorem nameAt_setRelated (l : List IODescriptor) (i v k : Nat) :
    nameAt (setRelated l i v) k = nameAt l k :=
  nameAt_congr _ _ (setRelated_map_eraseRel l i v) k

theorem findByName_setRelated (l : List IODescriptor) (i v : Nat) (t : String) :
    findByName (setRelated l i v) t = findByName l t :=
  findByName_congr _ _ t (map_name_congr _ _ (setRelated_map_eraseRel l i v))

theorem relAt_eq_none_of_forall (l : List IODescriptor)
    (h : ∀ d ∈ l, d.relatedDescriptorIndex = none) (i : Nat) : relAt l i = none := by
  unfold relAt
  cases hg : l.get? i with
  | none => rfl
  | some d => exact h d (List.get?_mem hg)

theorem NamesNodup_congr (l₁ l₂ : List IODescriptor)
    (h : l₁.map eraseRel = l₂.map eraseRel) : NamesNodup l₁ ↔ NamesNodup l₂ := by
  unfold NamesNodup
  rw [map_name_congr _ _ h]

theorem BindInvL_state_write (ins outs : List IODescriptor) (a j : Nat)
    (input : IODescriptor)
    (hin : NamesNodup ins) (hg : ins.get? a = some input)
    (hrn : input.relatedDescriptorIndex = none)
    (hst : input.isStateInput = true)
    (hf : findByName outs input.nameFromCompiler = some j)
    (h : BindInvL ins outs) :
    BindInvL (setRelated ins a j) (setRelated outs j a) := by
  obtain ⟨dout, hj, hjnm⟩ := findByName_some outs input.nameFromCompiler j hf
  have hnew : StatePairBoundL (setRelated ins a j) (setRelated outs j a) a j := by
    refine ⟨?_, ?_, ?_, ?_⟩
    · rw [isStateInputAt_setRelated, isStateInputAt_of_get? _ _ _ hg]
      exact hst
    · rw [nameAt_setRelated, nameAt_of_get? _ _ _ hg, findByName_setRelated]
      exact hf
    · exact relAt_setRelated_self ins a j input hg
    · exact relAt_setRelated_self outs j a dout hj
  constructor
  · intro i' j' hrel'
    by_cases hia : i' = a
    · subst hia
      rw [relAt_setRelated_self ins i' j input hg] at hrel'
      injection hrel' with hjj
      subst hjj
      exact hnew
    · rw [relAt_setRelated_of_ne ins a j i' hia] at hrel'
      have hsp := h.1 i' j' hrel'
      obtain ⟨din, hgi', hdi'⟩ : ∃ d, ins.get? i' = some d ∧ d.relatedDescriptorIndex = some j' := by
        unfold relAt at hrel'
        cases hx : ins.get? i' with
        | none => rw [hx] at hrel'; exact Option.noConfusion hrel'
        | some d => rw [hx] at hrel'; exact ⟨d, rfl, hrel'⟩
      refine ⟨?_, ?_, ?_, ?_⟩
      · rw [isStateInputAt_setRelated]; exact hsp.1
      · rw [nameAt_setRelated, findByName_setRelated]; exact hsp.2.1
      · rw [relAt_setRelated_of_ne ins a j i' hia]; exact hrel'
      · by_cases hjj : j' = j
        · exfalso
          subst hjj
          obtain ⟨dout', hj', hjnm'⟩ := findByName_some outs (nameAt ins i') j' hsp.2.1
          rw [hj] at hj'
          injection hj' with hdd
          have hnames : din.nameFromCompiler = input.nameFromCompiler := by
            rw [nameAt_of_get? _ _ _ hgi'] at hjnm'
            rw [← hjnm', ← hdd, hjnm]
          have hfa := findByName_self_of_nodup ins hin a input hg
          have hfi' := findByName_self_of_nodup ins hin i' din hgi'
          rw [hnames, hfa] at hfi'
          injection hfi' with hii
          exact hia hii.symm
        · rw [relAt_setRelated_of_ne outs j a j' hjj]
          exact hsp.2.2.2
  · intro j' i' hrel'
    by_cases hjj : j' = j
    · subst hjj
      rw [relAt_setRelated_self outs j' a dout hj] at hrel'
      injection hrel' with hii
      subst hii
      exact hnew
    · rw [relAt_setRelated_of_ne outs j a j' hjj] at hrel'
      have hsp := h.2 j' i' hrel'
      refine ⟨?_, ?_, ?_, ?_⟩
      · rw [isStateInputAt_setRelated]; exact hsp.1
      · rw [nameAt_setRelated, findByName_setRelated]; exact hsp.2.1
      · by_cases hia : i' = a
        · exfalso
          subst hia
          have hra : relAt ins i' = some j' := hsp.2.2.1
          rw [relAt_of_get? ins i' input hg, hrn] at hra
          exact Option.noConfusion hra
        · rw [relAt_setRelated_of_ne ins a j i' hia]
          exact hsp.2.2.1
      · rw [relAt_setRelated_of_ne outs j a j' hjj]
        exact hsp.2.2.2

theorem bindInputAt_BindInv (m : NetworkMetadata) (a : Nat)
    (hin : NamesNodup m.inputs) (h : BindInv m) : BindInv (bindInputAt m a) := by
  rcases bindInputAt_cases m a with ⟨heq, _⟩ | ⟨input, j, hg, hrn, hst, hf, _, heq⟩ |
    ⟨input, j, hg, hrn, hst, hsh, hf, hja, _, heq⟩
  · rw [heq]; exact h
  · rw [heq]
    exact BindInvL_state_write m.inputs m.outputs a j input hin hg hrn hst hf h
  · exfalso
    have hself := findByName_self_of_nodup m.inputs hin a input hg
    rw [hf] at hself
    injection hself with hja'
    exact hja hja'

theorem bindOutputAt_eq_self_of_nodup (m : NetworkMetadata) (a : Nat)
    (hout : NamesNodup m.outputs) : bindOutputAt m a = m := by
  rcases bindOutputAt_cases m a with ⟨heq, _⟩ | ⟨output, j, hg, hrn, hsh, hf, hja, _, heq⟩
  · exact heq
  · exfalso
    have hself := findByName_self_of_nodup m.outputs hout a output hg
    rw [hf] at hself
    injection hself with hja'
    exact hja hja'

theorem foldl_bindInputAt_BindInv (l : List Nat) (m : NetworkMetadata)
    (hin : NamesNodup m.inputs) (h : BindInv m) :
    BindInv (l.foldl bindInputAt m) := by
  induction l generalizing m with
  | nil => exact h
  | cons a l ih =>
    rw [List.foldl_cons]
    have hin' : NamesNodup (bindInputAt m a).inputs :=
      (NamesNodup_congr _ _ (bindInputAt_inputs_eraseRel m a)).mpr hin
    exact ih (bindInputAt m a) hin' (bindInputAt_BindInv m a hin h)

theorem SelfRefOnlyStateL_state_write (ins outs : List IODescriptor) (a j : Nat)
    (input dout : IODescriptor) (hg : ins.get? a = some input)
    (hst : input.isStateInput = true) (hj : outs.get? j = some dout)
    (h : SelfRefOnlyStateL ins outs) :
    SelfRefOnlyStateL (setRelated ins a j) (setRelated outs j a) := by
  constructor
  · intro i hr
    rw [isStateInputAt_setRelated]
    by_cases hia : i = a
    · subst hia
      rw [isStateInputAt_of_get? _ _ _ hg]
      exact hst
    · rw [relAt_setRelated_of_ne ins a j i hia] at hr
      exact h.1 i hr
  · intro k hr
    rw [isStateInputAt_setRelated]
    by_cases hkj : k = j
    · subst hkj
      rw [relAt_setRelated_self outs k a dout hj] at hr
      injection hr with hak
      subst hak
      rw [isStateInputAt_of_get? _ _ _ hg]
      exact hst
    · rw [relAt_setRelated_of_ne outs j a k hkj] at hr
      exact h.2 k hr

theorem setRelated_get?_none (l : List IODescriptor) (i v : Nat) (h : l.get? i = none) :
    (setRelated l i v).get? i = none := by
  induction l generalizing i with
  | nil => rfl
  | cons d rest ih =>
    cases i with
    | zero => exact Option.noConfusion h
    | succ i' => exact ih i' h

theorem relAt_setRelated_self_or_none (l : List IODescriptor) (i v : Nat) :
    relAt (setRelated l i v) i = some v ∨ relAt (setRelated l i v) i = none := by
  cases hx : l.get? i with
  | some d => exact Or.inl (relAt_setRelated_self l i v d hx)
  | none =>
    right
    unfold relAt
    rw [setRelated_get?_none l i v hx]

theorem SelfRefOnlyStateL_shape_in_write (ins outs : List IODescriptor) (a j : Nat)
    (input : IODescriptor) (hg : ins.get? a = some input) (hja : j ≠ a)
    (h : SelfRefOnlyStateL ins outs) :
    SelfRefOnlyStateL (setRelated (setRelated ins a j) j a) outs := by
  constructor
  · intro i hr
    rw [isStateInputAt_setRelated, isStateInputAt_setRelated]
    by_cases hij : i = j
    · exfalso
      subst hij
      rcases relAt_setRelated_self_or_none (setRelated ins a i) i a with hs | hn
      · rw [hs] at hr
        injection hr with hai
        exact hja hai.symm
      · rw [hn] at hr
        exact Option.noConfusion hr
    · rw [relAt_setRelated_of_ne _ j a i hij] at hr
      by_cases hia : i = a
      · exfalso
        subst hia
        rw [relAt_setRelated_self ins i j input hg] at hr
        injection hr with hji
        exact hja hji
      · rw [relAt_setRelated_of_ne ins a j i hia] at hr
        exact h.1 i hr
  · intro k hr
    rw [isStateInputAt_setRelated, isStateInputAt_setRelated]
    exact h.2 k hr

theorem SelfRefOnlyStateL_shape_out_write (ins outs : List IODescriptor) (a j : Nat)
    (output : IODescriptor) (hg : outs.get? a = some output) (hja : j ≠ a)
    (h : SelfRefOnlyStateL ins outs) :
    SelfRefOnlyStateL ins (setRelated (setRelated outs a j) j a) := by
  constructor
  · exact h.1
  · intro k hr
    by_cases hkj : k = j
    · exfalso
      subst hkj
      rcases relAt_setRelated_self_or_none (setRelated outs a k) k a with hs | hn
      · rw [hs] at hr
        injection hr with hak
        exact hja hak.symm
      · rw [hn] at hr
        exact Option.noConfusion hr
    · rw [relAt_setRelated_of_ne _ j a k hkj] at hr
      by_cases hka : k = a
      · exfalso
        subst hka
        rw [relAt_setRelated_self outs k j output hg] at hr
        injection hr with hjk
        exact hja hjk
      · rw [relAt_setRelated_of_ne outs a j k hka] at hr
        exact h.2 k hr

theorem bindInputAt_SelfRefOnlyState (m : NetworkMetadata) (a : Nat)
    (h : SelfRefOnlyStateL m.inputs m.outputs) :
    SelfRefOnlyStateL (bindInputAt m a).inputs (bindInputAt m a).outputs := by
  rcases bindInputAt_cases m a with ⟨heq, _⟩ | ⟨input, j, hg, hrn, hst, hf, _, heq⟩ |
    ⟨input, j, hg, hrn, hst, hsh, hf, hja, _, heq⟩
  · rw [heq]; exact h
  · rw [heq]
    obtain ⟨dout, hj, _⟩ := findByName_some m.outputs input.nameFromCompiler j hf
    exact SelfRefOnlyStateL_state_write m.inputs m.outputs a j input dout hg hst hj h
  · rw [heq]
    exact SelfRefOnlyStateL_shape_in_write m.inputs m.outputs a j input hg hja h

theorem bindOutputAt_SelfRefOnlyState (m : NetworkMetadata) (a : Nat)
    (h : SelfRefOnlyStateL m.inputs m.outputs) :
    SelfRefOnlyStateL (bindOutputAt m a).inputs (bindOutputAt m a).outputs := by
  rcases bindOutputAt_cases m a with ⟨heq, _⟩ | ⟨output, j, hg, hrn, hsh, hf, hja, _, heq⟩
  · rw [heq]; exact h
  · rw [heq]
    exact SelfRefOnlyStateL_shape_out_write m.inputs m.outputs a j output hg hja h

theorem foldl_bindInputAt_SelfRefOnlyState (l : List Nat) (m : NetworkMetadata)
    (h : SelfRefOnlyStateL m.inputs m.outputs) :
    SelfRefOnlyStateL (l.foldl bindInputAt m).inputs (l.foldl bindInputAt m).outputs := by
  induction l generalizing m with
  | nil => exact h
  | cons a l ih =>
    rw [List.foldl_cons]
    exact ih (bindInputAt m a) (bindInputAt_SelfRefOnlyState m a h)

theorem foldl_bindOutputAt_SelfRefOnlyState (l : List Nat) (m : NetworkMetadata)
    (h : SelfRefOnlyStateL m.inputs m.outputs) :
    SelfRefOnlyStateL (l.foldl bindOutputAt m).inputs (l.foldl bindOutputAt m).outputs := by
  induction l generalizing m with
  | nil => exact h
  | cons a l ih =>
    rw [List.foldl_cons]
    exact ih (bindOutputAt m a) (bindOutputAt_SelfRefOnlyState m a h)

/-- C1 (counterexample): with duplicate compiler-facing names the symmetry
claim fails.  In `dupStateNet` the input pass first binds input 0 to output 0
and back, then input 1 rebinds output 0 to itself, leaving
`inputs[0].relatedDescriptorIndex = 0` while
`outputs[0].relatedDescriptorIndex = 1`. -/
theorem boundPairsSymmetric_counterexample :
    ¬ BoundPairsSymmetric (bindRelatedDescriptors dupStateNet) := by
  intro h
  have h0 := h.1 0 0 (by decide) (by decide)
  exact absurd h0 (by decide)

/-- C1 (amended): when the compiler-facing names are pairwise distinct within
the inputs list and within the outputs list and no descriptor is pre-bound,
every pair bound by `bindRelatedDescriptors` is a symmetric state pairing:
`inputs[i].related = j` implies `inputs[i]` is a state input with
`outputs[j].related = i`, and conversely `outputs[j].related = i` implies
`inputs[i].related = j`.  (Shape-tensor pairings require duplicate names to
fire at all, which the hypothesis excludes.) -/
theorem bindRelatedDescriptors_state_pairs_symmetric (m : NetworkMetadata)
    (h1 : ∀ d ∈ m.inputs, d.relatedDescriptorIndex = none)
    (h2 : ∀ d ∈ m.outputs, d.relatedDescriptorIndex = none)
    (hin : NamesNodup m.inputs) (hout : NamesNodup m.outputs) :
    (∀ i j, relAt (bindRelatedDescriptors m).inputs i = some j →
      isStateInputAt (bindRelatedDescriptors m).inputs i = true ∧
      relAt (bindRelatedDescriptors m).outputs j = some i) ∧
    (∀ j i, relAt (bindRelatedDescriptors m).outputs j = some i →
      relAt (bindRelatedDescriptors m).inputs i = some j) := by
  obtain ⟨m₁, hm1⟩ : ∃ x, (List.range m.inputs.length).foldl bindInputAt m = x := ⟨_, rfl⟩
  have hinv0 : BindInv m := by
    constructor
    · intro i j hr
      rw [relAt_eq_none_of_forall m.inputs h1 i] at hr
      exact Option.noConfusion hr
    · intro j i hr
      rw [relAt_eq_none_of_forall m.outputs h2 j] at hr
      exact Option.noConfusion hr
  have hinv1 : BindInv m₁ := by
    rw [← hm1]
    exact foldl_bindInputAt_BindInv _ m hin hinv0
  have hout1 : NamesNodup m₁.outputs := by
    refine (NamesNodup_congr _ _ ?_).mpr hout
    rw [← hm1]
    exact foldl_bindInputAt_outputs_eraseRel _ _
  have hbind : bindRelatedDescriptors m = m₁ := by
    rw [bindRelatedDescriptors_unfold m, hm1]
    exact foldl_fixed _ _ _ (fun i _ => bindOutputAt_eq_self_of_nodup m₁ i hout1)
  rw [hbind]
  constructor
  · intro i j hr
    have hsp := hinv1.1 i j hr
    exact ⟨hsp.1, hsp.2.2.2⟩
  · intro j i hr
    exact (hinv1.2 j i hr).2.2.1

/-- Witness for the amended C1 theorem at `c1WitnessNet`. -/
theorem bindRelatedDescriptors_state_pairs_symmetric_witness :
    (∀ i j, relAt (bindRelatedDescriptors c1WitnessNet).inputs i = some j →
      isStateInputAt (bindRelatedDescriptors c1WitnessNet).inputs i = true ∧
      relAt (bindRelatedDescriptors c1WitnessNet).outputs j = some i) ∧
    (∀ j i, relAt (bindRelatedDescriptors c1WitnessNet).outputs j = some i →
      relAt (bindRelatedDescriptors c1WitnessNet).inputs i = some j) :=
  bindRelatedDescriptors_state_pairs_symmetric c1WitnessNet
    (by decide) (by decide) (by unfold NamesNodup; decide) (by unfold NamesNodup; decide)

/-- C2 (counterexample): in `sameSlotStateNet` the single state input "v"
finds its matching output at the same position 0 and receives
`relatedDescriptorIndex = 0`, its own position — the code has no
self-position guard on the state branch. -/
theorem noSelfRelated_counterexample :
    ¬ NoSelfRelated (bindRelatedDescriptors sameSlotStateNet) := by
  intro h
  exact h.1 0 (by decide)

/-- C2 (amended): starting from unbound descriptors, a related index can
equal its own position only for a state pairing whose counterpart sits at
the same position in the other list; the shape-tensor (within-list) branches
guard against self-reference. -/
theorem bindRelatedDescriptors_selfRef_only_state (m : NetworkMetadata)
    (h1 : ∀ d ∈ m.inputs, d.relatedDescriptorIndex = none)
    (h2 : ∀ d ∈ m.outputs, d.relatedDescriptorIndex = none) :
    (∀ i, relAt (bindRelatedDescriptors m).inputs i = some i →
      isStateInputAt (bindRelatedDescriptors m).inputs i = true) ∧
    (∀ j, relAt (bindRelatedDescriptors m).outputs j = some j →
      isStateInputAt (bindRelatedDescriptors m).inputs j = true) := by
  have hinv0 : SelfRefOnlyStateL m.inputs m.outputs := by
    constructor
    · intro i hr
      rw [relAt_eq_none_of_forall m.inputs h1 i] at hr
      exact Option.noConfusion hr
    · intro j hr
      rw [relAt_eq_none_of_forall m.outputs h2 j] at hr
      exact Option.noConfusion hr
  obtain ⟨m₁, hm1⟩ : ∃ x, (List.range m.inputs.length).foldl bindInputAt m = x := ⟨_, rfl⟩
  have hinv1 : SelfRefOnlyStateL m₁.inputs m₁.outputs := by
    rw [← hm1]
    exact foldl_bindInputAt_SelfRefOnlyState _ m hinv0
  have hbind : bindRelatedDescriptors m =
      (List.range m₁.outputs.length).foldl bindOutputAt m₁ := by
    rw [bindRelatedDescriptors_unfold m, hm1]
  rw [hbind]
  exact foldl_bindOutputAt_SelfRefOnlyState _ m₁ hinv1

/-- Witness for the amended C2 theorem at `c2WitnessNet`. -/
theorem bindRelatedDescriptors_selfRef_only_state_witness :
    (∀ i, relAt (bindRelatedDescriptors c2WitnessNet).inputs i = some i →
      isStateInputAt (bindRelatedDescriptors c2WitnessNet).inputs i = true) ∧
    (∀ j, relAt (bindRelatedDescriptors c2WitnessNet).outputs j = some j →
      isStateInputAt (bindRelatedDescriptors c2WitnessNet).inputs j = true) :=
  bindRelatedDescriptors_selfRef_only_state c2WitnessNet (by decide) (by decide)

/-- C9 (counterexample): in `orphanStateNet`, `findByName` over the outputs
returns the empty optional for input 0, yet after binding input 0 carries
`relatedDescriptorIndex = 1` — written by the duplicate-named shape tensor at
position 1, not left empty. -/
theorem unmatchedStateInputUnbound_counterexample :
    ¬ UnmatchedStateInputUnbound orphanStateNet := by
  intro h
  have h0 := h 0 (by decide) (by decide)
  exact absurd h0 (by decide)

theorem unmatched_step (m₀ m' : NetworkMetadata) (i a : Nat)
    (hieq : m'.inputs.map eraseRel = m₀.inputs.map eraseRel)
    (hoeq : m'.outputs.map eraseRel = m₀.outputs.map eraseRel)
    (hstate : isStateInputAt m₀.inputs i = true)
    (hfind : findByName m₀.outputs (nameAt m₀.inputs i) = none)
    (huniq : ∀ k, k < m₀.inputs.length → k ≠ i → nameAt m₀.inputs k ≠ nameAt m₀.inputs i)
    (hrel' : relAt m'.inputs i = none) :
    relAt (bindInputAt m' a).inputs i = none := by
  rcases bindInputAt_cases m' a with ⟨heq, _⟩ | ⟨input, j, hg, hrn, hst, hf, _, heq⟩ |
    ⟨input, j, hg, hrn, hst, hsh, hf, hja, _, heq⟩
  · rw [heq]; exact hrel'
  · rw [heq]
    show relAt (setRelated m'.inputs a j) i = none
    by_cases hia : i = a
    · exfalso
      subst hia
      have hn : input.nameFromCompiler = nameAt m₀.inputs i := by
        rw [← nameAt_of_get? m'.inputs i input hg]
        exact nameAt_congr _ _ hieq i
      rw [hn, findByName_congr m'.outputs m₀.outputs _ (map_name_congr _ _ hoeq),
        hfind] at hf
      exact Option.noConfusion hf
    · rw [relAt_setRelated_of_ne m'.inputs a j i hia]
      exact hrel'
  · rw [heq]
    show relAt (setRelated (setRelated m'.inputs a j) j a) i = none
    by_cases hia : i = a
    · exfalso
      subst hia
      have hsi : isStateInputAt m'.inputs i = true := by
        rw [isStateInputAt_congr _ _ hieq]
        exact hstate
      rw [isStateInputAt_of_get? _ _ _ hg, hst] at hsi
      exact Bool.noConfusion hsi
    · have hji : j ≠ i := by
        intro hj
        subst hj
        obtain ⟨dj, hdj, hdjn⟩ := findByName_some m'.inputs input.nameFromCompiler _ hf
        have ha_lt : a < m₀.inputs.length := by
          rw [← length_congr_of_map_eraseRel _ _ hieq]
          exact lt_length_of_get? m'.inputs a input hg
        have hnames : nameAt m₀.inputs a = nameAt m₀.inputs j := by
          rw [← nameAt_congr _ _ hieq a, ← nameAt_congr _ _ hieq j,
            nameAt_of_get? _ _ _ hg, nameAt_of_get? _ _ _ hdj, hdjn]
        exact huniq a ha_lt (fun haa => hia haa.symm) hnames
      rw [relAt_setRelated_of_ne _ j a i (fun hh => hji hh.symm),
        relAt_setRelated_of_ne m'.inputs a j i hia]
      exact hrel'

theorem unmatched_foldl (l : List Nat) (m₀ : NetworkMetadata) (i : Nat)
    (hstate : isStateInputAt m₀.inputs i = true)
    (hfind : findByName m₀.outputs (nameAt m₀.inputs i) = none)
    (huniq : ∀ k, k < m₀.inputs.length → k ≠ i → nameAt m₀.inputs k ≠ nameAt m₀.inputs i) :
    ∀ m', m'.inputs.map eraseRel = m₀.inputs.map eraseRel →
      m'.outputs.map eraseRel = m₀.outputs.map eraseRel →
      relAt m'.inputs i = none →
      relAt ((l.foldl bindInputAt m').inputs) i = none := by
  induction l with
  | nil => intro m' _ _ hrel'; exact hrel'
  | cons a l ih =>
    intro m' hieq hoeq hrel'
    rw [List.foldl_cons]
    exact ih (bindInputAt m' a)
      (by rw [bindInputAt_inputs_eraseRel]; exact hieq)
      (by rw [bindInputAt_outputs_eraseRel]; exact hoeq)
      (unmatched_step m₀ m' i a hieq hoeq hstate hfind huniq hrel')

/-- C9 (amended): a state input whose name search over the outputs fails is
left unbound by `bindRelatedDescriptors`, provided no other input shares its
compiler-facing name (a duplicate-named shape tensor could otherwise still
bind it as its within-list partner); no error occurs — the miss is encoded
as the empty optional. -/
theorem bindRelatedDescriptors_unmatched_state_unbound (m : NetworkMetadata) (i : Nat)
    (hstate : isStateInputAt m.inputs i = true)
    (hrel : relAt m.inputs i = none)
    (hfind : findByName m.outputs (nameAt m.inputs i) = none)
    (huniq : ∀ k, k < m.inputs.length → k ≠ i → nameAt m.inputs k ≠ nameAt m.inputs i) :
    relAt (bindRelatedDescriptors m).inputs i = none := by
  obtain ⟨m₁, hm1⟩ : ∃ x, (List.range m.inputs.length).foldl bindInputAt m = x := ⟨_, rfl⟩
  have h1 : relAt m₁.inputs i = none := by
    rw [← hm1]
    exact unmatched_foldl (List.range m.inputs.length) m i hstate hfind huniq m rfl rfl hrel
  rw [bindRelatedDescriptors_unfold m, hm1, foldl_bindOutputAt_inputs]
  exact h1

/-- Witness for the amended C9 theorem at `c9WitnessNet`. -/
theorem bindRelatedDescriptors_unmatched_state_unbound_witness :
    relAt (bindRelatedDescriptors c9WitnessNet).inputs 0 = none :=
  bindRelatedDescriptors_unmatched_state_unbound c9WitnessNet 0
    (by decide) (by decide) (by decide) (by decide)

theorem lookup_filter_ne_key (key : String) (l : List (String × RtValue)) :
    (l.filter (fun p => p.1 != key)).lookup key = none := by
  induction l with
  | nil => rfl
  | cons p rest ih =>
    by_cases hp : p.1 = key
    · simp [List.filter_cons, hp, ih]
    · have hkp : (key == p.1) = false := beq_eq_false_iff_ne.mpr (Ne.symm hp)
      simp [List.filter_cons, hp, List.lookup, ih, hkp]

theorem rtLookup_rt_info_erase (m : OvModel) (key : String) :
    rtLookup (rt_info_erase m key) key = none :=
  lookup_filter_ne_key key m.rtInfo

theorem mkIR_refModel_rtLookup_none (model : OvModel) (supportedOpset : Nat) (env : SerEnv) :
    rtLookup (refModel (mkIR model supportedOpset env)) newApiKey = none := by
  by_cases ho : supportedOpset < 11 <;>
    cases hw : env.isWindows && decide (model.graphSize > 1024 * 1024 * 1024 * 2) <;>
      simp [mkIR, serializeToIR, opsetStep, serializeMain, lockedSection, openFilesStep,
        run_passes, runPass, pushEvent, setRefModel, refModel, ho, hw,
        rtLookup_rt_info_erase]

/-- C3: constructing the IR serializer with `supportedOpset < 11` clones the
model before registering the interpolate downgrade, so the caller's original
model object is left untouched (it still holds the undowngraded operators;
even the transient runtime-info flag is applied to the clone). -/
theorem mkIR_preserves_original_below_opset11 (model : OvModel) (supportedOpset : Nat)
    (env : SerEnv) (h : supportedOpset < 11) :
    (mkIR model supportedOpset env).origModel = model ∧
    (mkIR model supportedOpset env).usesClone = true := by
  cases hw : env.isWindows && decide (model.graphSize > 1024 * 1024 * 1024 * 2) <;>
    simp [mkIR, serializeToIR, opsetStep, serializeMain, lockedSection, openFilesStep,
      run_passes, runPass, pushEvent, setRefModel, refModel, h, hw]

/-- Witness for the C3 theorem at a concrete model, opset 10. -/
theorem mkIR_preserves_original_below_opset11_witness :
    10 < 11 ∧ ((mkIR c3WitnessModel 10 plainEnv).origModel = c3WitnessModel ∧
      (mkIR c3WitnessModel 10 plainEnv).usesClone = true) :=
  ⟨by decide, mkIR_preserves_original_below_opset11 c3WitnessModel 10 plainEnv (by decide)⟩

/-- C4: the storage medium is chosen by the large-model test
(`> 2 GiB` and Windows): in-memory mode produces the two memory streams and
creates no files; large-model mode writes and registers for deletion the two
temporary files `<modelName>_serialized.xml` / `.bin`, opens them in binary
mode, and the accessors hand back the file streams in that mode and the
memory streams otherwise. -/
theorem mkIR_storage_medium (model : OvModel) (supportedOpset : Nat) (env : SerEnv) :
    (mkIR model supportedOpset env).isLargeModel =
      (env.isWindows && decide (model.graphSize > 1024 * 1024 * 1024 * 2)) ∧
    (mkIR model supportedOpset env).writtenFiles =
      (if (mkIR model supportedOpset env).isLargeModel then
        [model.friendlyName ++ "_serialized.xml", model.friendlyName ++ "_serialized.bin"]
       else []) ∧
    (mkIR model supportedOpset env).fileToDelete =
      (if (mkIR model supportedOpset env).isLargeModel then
        [model.friendlyName ++ "_serialized.xml", model.friendlyName ++ "_serialized.bin"]
       else []) ∧
    ((mkIR model supportedOpset env).xml).isSome =
      !(mkIR model supportedOpset env).isLargeModel ∧
    ((mkIR model supportedOpset env).weights).isSome =
      !(mkIR model supportedOpset env).isLargeModel ∧
    (mkIR model supportedOpset env).xmlOpenedBinary =
      (mkIR model supportedOpset env).isLargeModel ∧
    (mkIR model supportedOpset env).weightsOpenedBinary =
      (mkIR model supportedOpset env).isLargeModel ∧
    getXml (mkIR model supportedOpset env) =
      (if (mkIR model supportedOpset env).isLargeModel then
        StreamChoice.fileStream (some (model.friendlyName ++ "_serialized.xml"))
       else StreamChoice.memoryStream (mkIR model supportedOpset env).xml) ∧
    getWeights (mkIR model supportedOpset env) =
      (if (mkIR model supportedOpset env).isLargeModel then
        StreamChoice.fileStream (some (model.friendlyName ++ "_serialized.bin"))
       else StreamChoice.memoryStream (mkIR model supportedOpset env).weights) := by
  by_cases ho : supportedOpset < 11 <;>
    cases hw : env.isWindows && decide (model.graphSize > 1024 * 1024 * 1024 * 2) <;>
      simp [mkIR, serializeToIR, opsetStep, serializeMain, lockedSection, openFilesStep,
        run_passes, runPass, pushEvent, setRefModel, refModel, getXml, getWeights,
        xmlNameOf, weightsNameOf, cloneModel, ho, hw]

/-- C6: the serialization runs exactly one critical section — acquire the
process-wide lock, set the `is_new_api` flag, run the passes, erase the
flag, release the lock — and afterwards the flag is absent from the
serialized model's runtime info. -/
theorem serializeToIR_transient_flag_protocol (model : OvModel) (supportedOpset : Nat)
    (env : SerEnv) :
    (mkIR model supportedOpset env).events =
      [SerEvent.lockAcquire, SerEvent.setFlag, SerEvent.runPasses,
        SerEvent.eraseFlag, SerEvent.lockRelease] ∧
    rtLookup (refModel (mkIR model supportedOpset env)) newApiKey = none := by
  refine ⟨?_, mkIR_refModel_rtLookup_none model supportedOpset env⟩
  by_cases ho : supportedOpset < 11 <;>
    cases hw : env.isWindows && decide (model.graphSize > 1024 * 1024 * 1024 * 2) <;>
      simp [mkIR, serializeToIR, opsetStep, serializeMain, lockedSection, openFilesStep,
        run_passes, runPass, pushEvent, setRefModel, refModel, ho, hw]

/-- C7: construction records a hard failure exactly when large-model mode is
active and at least one of the two temporary files fails to open; in-memory
mode never fails, and large-model mode succeeds precisely when both files
open. -/
theorem serializeToIR_open_failure_fatal (model : OvModel) (supportedOpset : Nat)
    (env : SerEnv) :
    (mkIR model supportedOpset env).failed =
      ((mkIR model supportedOpset env).isLargeModel &&
        !(env.openOk (model.friendlyName ++ "_serialized.xml") &&
          env.openOk (model.friendlyName ++ "_serialized.bin"))) := by
  by_cases ho : supportedOpset < 11 <;>
    cases hw : env.isWindows && decide (model.graphSize > 1024 * 1024 * 1024 * 2) <;>
      simp [mkIR, serializeToIR, opsetStep, serializeMain, lockedSection, openFilesStep,
        run_passes, runPass, pushEvent, setRefModel, refModel, xmlNameOf, weightsNameOf,
        cloneModel, ho, hw]

theorem removeLoop_map_fst (l : List String) (rm : String → Bool) :
    (removeLoop l rm).map Prod.fst = l := by
  induction l with
  | nil => rfl
  | cons f rest ih => simp [removeLoop, ih]

/-- C8: the destructor attempts to delete every recorded temporary path —
the attempt list equals `fileToDelete` for every possible pattern of
deletion failures, so an early failure never stops later attempts and no
error is raised — and both file handles are closed. -/
theorem irDestruct_attempts_every_path (st : IRState) (removeOk : String → Bool) :
    ((irDestruct st removeOk).1).map Prod.fst = st.fileToDelete ∧
    (irDestruct st removeOk).2.xmlFileOpen = false ∧
    (irDestruct st removeOk).2.weightsFileOpen = false := by
  by_cases h1 : st.xmlFileGood <;> by_cases h2 : st.weightsFileGood <;>
    simp [irDestruct, h1, h2, removeLoop_map_fst]

/-- C10: a pre-existing `is_new_api` runtime-info entry (of any value) is
gone from the serialized model after construction: the serializer erases
the key unconditionally instead of restoring the prior value. -/
theorem serializeToIR_erases_preexisting_flag (model : OvModel) (supportedOpset : Nat)
    (env : SerEnv) (v : RtValue) (h : rtLookup model newApiKey = some v) :
    rtLookup (refModel (mkIR model supportedOpset env)) newApiKey = none :=
  mkIR_refModel_rtLookup_none model supportedOpset env

/-- Witness for the C10 theorem at a model already holding the key. -/
theorem serializeToIR_erases_preexisting_flag_witness :
    rtLookup c10WitnessModel newApiKey = some (RtValue.otherVal 7) ∧
    rtLookup (refModel (mkIR c10WitnessModel 11 plainEnv)) newApiKey = none :=
  ⟨by decide, serializeToIR_erases_preexisting_flag c10WitnessModel 11 plainEnv
    (RtValue.otherVal 7) (by decide)⟩

end IntelNPU
